import Mathlib

/-!
Verification development for the single-player-tarkov container helper.

The repository has two implementations of the same config-patch engine:
a Go entrypoint (`entrypoint/main.go`) and a TypeScript server mod
(`mod/src/mod.ts`).  Both are embedded below as pure functions.  External
effects are made explicit:

* the filesystem is a map `String → Option String` and every stat / read /
  write is recorded in an event trace (`Ev`);
* external commands (`usermod`, `chown`, `gosu`, `unzip`, ...) are recorded
  as a trace of argument vectors, with the outcome of each command supplied
  by a parameter `execRes : List String → Except String String`;
* `filepath.Join` / `path.join` and the third-party JSON-patch libraries are
  abstract function parameters, since no property below depends on them.

String primitives used by the sources (JavaScript `split`, `trim`,
`startsWith`, the `^\[([^\]]+)\]` section regex, Go `strings.HasPrefix` /
`HasSuffix`) are implemented on `List Char` so that they are easy to both
evaluate and reason about.
-/

/-- Whitespace recognised by the `trim` of the sources (space, tab, CR, LF). -/
def isSpaceChar (c : Char) : Bool :=
  c = ' ' || c = '\t' || c = '\n' || c = '\r'

/-- JavaScript `String.prototype.trim`: drop whitespace from both ends. -/
def trimChars (l : List Char) : List Char :=
  ((l.dropWhile isSpaceChar).reverse.dropWhile isSpaceChar).reverse

/-- JavaScript `s.split(sep)` for a single-character separator: `k`
occurrences of the separator yield `k + 1` (possibly empty) fields. -/
def splitOnChar (sep : Char) : List Char → List (List Char)
  | [] => [[]]
  | c :: cs =>
    if c = sep then
      [] :: splitOnChar sep cs
    else
      match splitOnChar sep cs with
      | [] => [[c]]
      | p :: ps => (c :: p) :: ps

/-- JavaScript `parts.join(sep)` for a single-character separator. -/
def joinChar (sep : Char) : List (List Char) → List Char
  | [] => []
  | [p] => p
  | p :: q :: ps => p ++ sep :: joinChar sep (q :: ps)

/-- JavaScript `s.split(sep, 1)[0]`: the text before the first separator,
or the whole string when the separator does not occur. -/
def beforeChar (sep : Char) (l : List Char) : List Char :=
  match splitOnChar sep l with
  | [] => []
  | p :: _ => p

/-- Section-header matcher, the regex `^\[([^\]]+)\]` of `mod.ts`: an
opening bracket, at least one non-`]` character (the captured name), then a
closing bracket; trailing text is ignored, exactly as `RegExp.match` does. -/
def headerName (l : List Char) : Option (List Char) :=
  match l with
  | '[' :: rest =>
    let inside := rest.takeWhile (fun c => c ≠ ']')
    let remaining := rest.dropWhile (fun c => c ≠ ']')
    if inside = [] then none
    else if remaining = [] then none
    else some inside
  | _ => none

/-- Key of a (pre-trimmed) cfg line: `trimmedLine.split("=", 1)[0].trim()`
from `mod.ts`. -/
def leftKey (t : List Char) : List Char :=
  trimChars (beforeChar '=' t)

/-- Go `strings.HasPrefix` / JavaScript `String.prototype.startsWith`. -/
def strStarts (s pre : String) : Bool :=
  List.isPrefixOf pre.data s.data

/-- Go `strings.HasSuffix` / JavaScript `String.prototype.endsWith`. -/
def strEnds (s suf : String) : Bool :=
  List.isSuffixOf suf.data s.data

/-- One JSON-Patch style operation (`ConfigPatch` in `main.go`, `Operation`
in `mod.ts`).  The `value` field carries the payload in its string form:
the cfg dialect stringifies it anyway and nothing else inspects it. -/
structure ConfigPatch where
  op : String
  path : String
  value : String
deriving DecidableEq, Repr

/-- Filesystem seen by the patch engines: path to file content. -/
abbrev Fs := String → Option String

/-- Result of `os.WriteFile` / `writeFile`: the updated filesystem. -/
def fsUpdate (fs : Fs) (p v : String) : Fs :=
  fun q => if q = p then some v else fs q

/-- Observable events of the patch engines: the file operations performed
plus the per-patch log line that `applyConfigPatches` in `main.go` emits —
`logger.Info("apply config patch", "patch", patch, "error", err)` records
the attempted patch together with its outcome. -/
inductive Ev where
  | stat (path : String)
  | read (path : String)
  | write (path : String) (content : String)
  | logPatch (relPath : String) (patch : ConfigPatch) (result : Except String Unit)
deriving Repr

/-- Recognises the log events among the trace events. -/
def Ev.isLog : Ev → Bool
  | .logPatch _ _ _ => true
  | _ => false

/-- Recognises the log events that recorded a failed patch attempt. -/
def Ev.isFailLog : Ev → Bool
  | .logPatch _ _ (.error _) => true
  | _ => false

/-- File and patch of a log event; `none` for the file operations. -/
def Ev.logEntry : Ev → Option (String × ConfigPatch)
  | .logPatch relPath patch _ => some (relPath, patch)
  | _ => none

/-- Boolean success test for `Except` results. -/
def exOk {ε α : Type} : Except ε α → Bool
  | .ok _ => true
  | .error _ => false

/-- Substring occurrence test: `needle` occurs contiguously in `hay`. -/
def listHasInfix (needle : List Char) : List Char → Bool
  | [] => needle.isEmpty
  | c :: rest => List.isPrefixOf needle (c :: rest) || listHasInfix needle rest

/-- Accumulates decimal digits; any non-digit character is a parse error. -/
def digitsToNat (acc : Nat) : List Char → Option Nat
  | [] => some acc
  | c :: cs =>
    if '0' ≤ c ∧ c ≤ '9' then digitsToNat (acc * 10 + (c.toNat - '0'.toNat)) cs
    else none

/-- Go `strconv.Atoi`: an optional sign followed by at least one decimal
digit; anything else is a parse error.  (Go's 64-bit overflow bound is not
modelled: the ids involved are small.) -/
def parseInt : List Char → Option Int
  | [] => none
  | '-' :: rest =>
    match rest with
    | [] => none
    | _ => (digitsToNat 0 rest).map (fun n => -(n : Int))
  | '+' :: rest =>
    match rest with
    | [] => none
    | _ => (digitsToNat 0 rest).map (fun n => (n : Int))
  | l => (digitsToNat 0 l).map (fun n => (n : Int))

namespace Patcher

/-- Validation part of `Patcher.applyCfgPatch` (`mod.ts` lines 72-79):
`op` must be `replace` and `patch.path.split("/")` must have exactly three
parts; the first part is discarded (`slice(1)`), the second is the target
section and the third the target key. -/
def validateCfgPatch (patch : ConfigPatch) : Except String (List Char × List Char) :=
  if patch.op = "replace" then
    match splitOnChar '/' patch.path.data with
    | [_, sec, key] => .ok (sec, key)
    | _ => .error ("patch path " ++ patch.path ++ " must be /section/key")
  else
    .error ("patch op " ++ patch.op ++ " must be 'replace'")

/-- Scanning loop of `Patcher.applyCfgPatch` (`mod.ts` lines 84-103):
walk the lines keeping the current section (`cur`); a line matching the
section regex updates `cur` and is skipped; the first non-header line whose
trimmed text before `=` equals `key` while `cur` is the target section is
replaced by `key = value` and the loop breaks, leaving the rest untouched. -/
def cfgScan (sec key v : List Char) : Option (List Char) → List (List Char) → List (List Char)
  | _, [] => []
  | cur, line :: rest =>
    let t := trimChars line
    match headerName t with
    | some s => line :: cfgScan sec key v (some s) rest
    | none =>
      if cur = some sec ∧ leftKey t = key then
        (key ++ [' ', '=', ' '] ++ v) :: rest
      else
        line :: cfgScan sec key v cur rest

/-- Content-level `Patcher.applyCfgPatch`: validate the patch, split the
file on newlines, run the scan, rejoin with newlines. -/
def applyCfgPatch (patch : ConfigPatch) (content : String) : Except String String :=
  match validateCfgPatch patch with
  | .error e => .error e
  | .ok (sec, key) =>
    .ok (String.mk (joinChar '\n'
      (cfgScan sec key patch.value.data none (splitOnChar '\n' content.data))))

end Patcher

/-! Specification-side characterisation of the cfg replace, written the way
the spec describes it: the current section of line `i` is obtained by
folding the headers of the lines before `i`, a line matches when it is not
a header, sits in the target section and its key is the target key, and the
operation rewrites the line at the first matching index (if any), leaving
every other line unchanged.  The theorems below prove the single-pass scan
of the source equal to this characterisation. -/

/-- Section tracking step: a header line becomes the current section, any
other line leaves it unchanged. -/
def stepSection (cur : Option (List Char)) (line : List Char) : Option (List Char) :=
  match headerName (trimChars line) with
  | some s => some s
  | none => cur

/-- Current section in force at line `i`, starting from section `cur`. -/
def sectionAtFrom (cur : Option (List Char)) (lines : List (List Char)) (i : Nat) :
    Option (List Char) :=
  (lines.take i).foldl stepSection cur

/-- Line `i` matches section `sec` and key `key`, starting from section
`cur`: it exists, is not a section header, sits in section `sec`, and its
trimmed text before `=` equals `key`. -/
def lineMatchesFrom (sec key : List Char) (cur : Option (List Char))
    (lines : List (List Char)) (i : Nat) : Bool :=
  match lines[i]? with
  | none => false
  | some line =>
    decide (headerName (trimChars line) = none
      ∧ sectionAtFrom cur lines i = some sec
      ∧ leftKey (trimChars line) = key)

/-- Line match with no section in force before the first header. -/
def lineMatches (sec key : List Char) (lines : List (List Char)) : Nat → Bool :=
  lineMatchesFrom sec key none lines

/-- Index of the first matching line, if any. -/
def firstMatchIdx (sec key : List Char) (lines : List (List Char)) : Option Nat :=
  (List.range lines.length).find? (lineMatches sec key lines)

/-- Specification-side replace: rewrite the line at the first matching
index to `key = value`; with no match, return the lines unchanged. -/
def cfgSpecApply (sec key v : List Char) (lines : List (List Char)) : List (List Char) :=
  match firstMatchIdx sec key lines with
  | some i => lines.set i (key ++ [' ', '=', ' '] ++ v)
  | none => lines

/-- Bridge between the two formulations: index of the replaced line,
computed by the same single pass as `cfgScan`. -/
def firstMatchAux (sec key : List Char) : Option (List Char) → List (List Char) → Option Nat
  | _, [] => none
  | cur, line :: rest =>
    let t := trimChars line
    match headerName t with
    | some s => (firstMatchAux sec key (some s) rest).map Nat.succ
    | none =>
      if cur = some sec ∧ leftKey t = key then some 0
      else (firstMatchAux sec key cur rest).map Nat.succ

namespace Patcher

/-- Cfg branch of `Patcher.applyPatch` at the file level (`mod.ts` lines
70-107): validate, read the file, run the scan, write the result back. -/
def applyCfgPatchFs (fs : Fs) (path : String) (patch : ConfigPatch) :
    Fs × List Ev × Except String Unit :=
  match validateCfgPatch patch with
  | .error e => (fs, [], .error e)
  | .ok (sec, key) =>
    match fs path with
    | none => (fs, [Ev.read path], .error ("ENOENT: no such file " ++ path))
    | some content =>
      let out := String.mk (joinChar '\n'
        (cfgScan sec key patch.value.data none (splitOnChar '\n' content.data)))
      (fsUpdate fs path out, [Ev.read path, Ev.write path out], .ok ())

/-- JSON branch of `Patcher.applyPatch` (`mod.ts` lines 115-119): read,
apply one operation with the vendored fast-json-patch library (abstracted
as `jsonApply`), write back.  A parse or apply failure surfaces as an
error after the read. -/
def applyJsonPatchFs (jsonApply : String → ConfigPatch → Except String String)
    (fs : Fs) (path : String) (patch : ConfigPatch) :
    Fs × List Ev × Except String Unit :=
  match fs path with
  | none => (fs, [Ev.read path], .error ("ENOENT: no such file " ++ path))
  | some content =>
    match jsonApply content patch with
    | .error e => (fs, [Ev.read path], .error e)
    | .ok out => (fsUpdate fs path out, [Ev.read path, Ev.write path out], .ok ())

/-- `Patcher.normalizePath` (`mod.ts` lines 57-62): reject a relative path
that starts with a path separator before any file access, else join it to
the spt folder (`path.join` abstracted as `joinP`).  The thrown message
interpolates the imported `path` module object by mistake in the source;
it is modelled as a fixed message. -/
def normalizePath (sptFolder : String) (joinP : String → String → String)
    (relPath : String) : Except String String :=
  if strStarts relPath "/" then .error "path is not absolute"
  else .ok (joinP sptFolder relPath)

/-- `Patcher.applyPatch` (`mod.ts` lines 127-137): normalize the path, then
dispatch on the filename suffix (`.cfg` / `.json` / unsupported). -/
def applyPatch (sptFolder : String) (joinP : String → String → String)
    (jsonApply : String → ConfigPatch → Except String String)
    (fs : Fs) (relPath : String) (patch : ConfigPatch) :
    Fs × List Ev × Except String Unit :=
  match normalizePath sptFolder joinP relPath with
  | .error e => (fs, [], .error e)
  | .ok np =>
    if strEnds np ".cfg" then applyCfgPatchFs fs np patch
    else if strEnds np ".json" then applyJsonPatchFs jsonApply fs np patch
    else (fs, [], .error ("unsupported file " ++ np))

/-- One file's patch list inside `Patcher.applyPatches`: the patches are
awaited one after the other, and a thrown error propagates immediately. -/
def applyPatchesFile (sptFolder : String) (joinP : String → String → String)
    (jsonApply : String → ConfigPatch → Except String String)
    (fs : Fs) (relPath : String) :
    List ConfigPatch → Fs × List Ev × Except String Unit
  | [] => (fs, [], .ok ())
  | patch :: rest =>
    let res := applyPatch sptFolder joinP jsonApply fs relPath patch
    match res.2.2 with
    | .error e => (res.1, res.2.1, .error e)
    | .ok _ =>
      let res2 := applyPatchesFile sptFolder joinP jsonApply res.1 relPath rest
      (res2.1, res.2.1 ++ res2.2.1, res2.2.2)

/-- `Patcher.applyPatches` (`mod.ts` lines 144-152) over the entries of the
`ConfigPatches` object (the entry list abstracts `Object.entries`): files
are processed in order and a thrown error propagates immediately. -/
def applyPatches (sptFolder : String) (joinP : String → String → String)
    (jsonApply : String → ConfigPatch → Except String String)
    (fs : Fs) : List (String × List ConfigPatch) → Fs × List Ev × Except String Unit
  | [] => (fs, [], .ok ())
  | entry :: rest =>
    let res := applyPatchesFile sptFolder joinP jsonApply fs entry.1 entry.2
    match res.2.2 with
    | .error e => (res.1, res.2.1, .error e)
    | .ok _ =>
      let res2 := applyPatches sptFolder joinP jsonApply res.1 rest
      (res2.1, res.2.1 ++ res2.2.1, res2.2.2)

end Patcher

namespace Entrypoint

/-- `User` of `main.go`: uid/gid pair, equality on both fields. -/
structure User where
  Uid : Int
  Gid : Int
deriving DecidableEq, Repr

/-- Command construction of `runCmd` (`main.go` lines 59-94): when a target
user is set and differs from the current user, the command is re-run through
`gosu uid:gid`; the outcome of the spawned command comes from `execRes`. -/
def runCmd (currentUser : User) (execRes : List String → Except String String)
    (cmd : List String) (user : Option User) : List String × Except String String :=
  let c := match user with
    | some u =>
      if u ≠ currentUser then
        "gosu" :: (toString u.Uid ++ ":" ++ toString u.Gid) :: cmd
      else cmd
    | none => cmd
  (c, execRes c)

/-- `getIntFromEnv` inside `getUserFromEnv` (`main.go` lines 133-139): an
unset/empty variable falls back to the printed default, then the string is
parsed as an integer (Go `strconv.Atoi`, modelled by `String.toInt?`). -/
def getIntFromEnv (envVal : String) (defaultValue : Int) : Except String Int :=
  let s := if envVal = "" then toString defaultValue else envVal
  match parseInt s.data with
  | some n => .ok n
  | none => .error ("parsing " ++ s ++ ": invalid syntax")

/-- `getUserFromEnv` (`main.go` lines 128-156): resolve the desired uid/gid
from the `UID`/`GID` environment values, defaulting to the pre-provisioned
`spt` account's ids (whose lookup result is `sptUserRes`). -/
def getUserFromEnv (sptUserRes : Except String User) (envGidVal envUidVal : String) :
    Except String User :=
  match sptUserRes with
  | .error e => .error e
  | .ok sptUser =>
    match getIntFromEnv envGidVal sptUser.Gid with
    | .error e => .error e
    | .ok gid =>
      match getIntFromEnv envUidVal sptUser.Uid with
      | .error e => .error e
      | .ok uid => .ok ⟨uid, gid⟩

/-- Group step of `updateNonRootUser` (`main.go` lines 589-595): run
`groupmod` only when the desired gid differs from the account's gid. -/
def updateGidStep (currentUser : User) (execRes : List String → Except String String)
    (sptUser user : User) : List (List String) × Except String Unit :=
  if user.Gid ≠ sptUser.Gid then
    let r := runCmd currentUser execRes ["groupmod", "-g", toString user.Gid, "spt"] none
    match r.2 with
    | .error e => ([r.1], .error e)
    | .ok _ => ([r.1], .ok ())
  else ([], .ok ())

/-- `updateNonRootUser` (`main.go` lines 571-598): refuse uid 0 outright
before anything else; otherwise look up the `spt` account and run `usermod`
and/or `groupmod` only for the ids that differ. -/
def updateNonRootUser (currentUser : User) (sptUserRes : Except String User)
    (execRes : List String → Except String String) (user : User) :
    List (List String) × Except String Unit :=
  if user.Uid = 0 then ([], .error "refusing to update spt user to uid 0")
  else
    match sptUserRes with
    | .error e => ([], .error e)
    | .ok sptUser =>
      if user.Uid ≠ sptUser.Uid then
        let r := runCmd currentUser execRes ["usermod", "-u", toString user.Uid, "spt"] none
        match r.2 with
        | .error e => ([r.1], .error e)
        | .ok _ =>
          let g := updateGidStep currentUser execRes sptUser user
          (r.1 :: g.1, g.2)
      else updateGidStep currentUser execRes sptUser user

/-- `setDirectoryOwner` (`main.go` lines 550-565): for each path, create the
directory (result supplied by `mkdirRes`) then `chown -R uid:gid` it,
aborting on the first failure. -/
def setDirectoryOwner (mkdirRes : String → Except String Unit) (currentUser : User)
    (execRes : List String → Except String String) (owner : User) :
    List String → List (List String) × Except String Unit
  | [] => ([], .ok ())
  | path :: rest =>
    match mkdirRes path with
    | .error e => ([], .error e)
    | .ok _ =>
      let r := runCmd currentUser execRes
        ["chown", "-R", toString owner.Uid ++ ":" ++ toString owner.Gid, path] none
      match r.2 with
      | .error e => ([r.1], .error e)
      | .ok _ =>
        let rest2 := setDirectoryOwner mkdirRes currentUser execRes owner rest
        (r.1 :: rest2.1, rest2.2)

/-- Tail of `preEntrypoint` (`main.go` lines 628-634): resolve this
executable's path, then run `<executable> entrypoint` attached, as `user`
(through `runCmd`, which inserts `gosu` only when `user` differs from the
current identity); the child's exit status becomes the result. -/
def launchEntrypoint (currentUser : User) (execRes : List String → Except String String)
    (executableRes : Except String String) (user : User) :
    List (List String) × Except String Unit :=
  match executableRes with
  | .error e => ([], .error e)
  | .ok exe =>
    let r := runCmd currentUser execRes [exe, "entrypoint"] (some user)
    ([r.1], Except.map (fun _ => ()) r.2)

/-- `preEntrypoint` (`main.go` lines 605-635): when the current identity is
root, resolve the desired identity from the environment, reconcile the spt
account, chown the data/spt trees, and launch the core entrypoint as that
identity; when already non-root, launch the core entrypoint directly as the
current identity. -/
def preEntrypoint (currentUser : User) (sptUserRes : Except String User)
    (envGidVal envUidVal : String) (mkdirRes : String → Except String Unit)
    (execRes : List String → Except String String)
    (executableRes : Except String String) (pathData pathSpt : String) :
    List (List String) × Except String Unit :=
  if currentUser.Uid = 0 then
    match getUserFromEnv sptUserRes envGidVal envUidVal with
    | .error e => ([], .error e)
    | .ok user =>
      let u := updateNonRootUser currentUser sptUserRes execRes user
      match u.2 with
      | .error e => (u.1, .error e)
      | .ok _ =>
        let s := setDirectoryOwner mkdirRes currentUser execRes user [pathData, pathSpt]
        match s.2 with
        | .error e => (u.1 ++ s.1, .error e)
        | .ok _ =>
          let l := launchEntrypoint currentUser execRes executableRes user
          (u.1 ++ s.1 ++ l.1, l.2)
  else
    launchEntrypoint currentUser execRes executableRes currentUser

/-- `extract` (`main.go` lines 186-202): ensure the destination directory
exists (result supplied by `mkdirRes`), then pick the extractor purely from
the filename suffix: `.zip` runs `unzip`, `.7z` runs `7z`, anything else is
the fatal `unrecongized file type` error (spelled as in the source) and no
extractor command runs. -/
def extract (mkdirRes : String → Except String Unit)
    (execRes : List String → Except String String) (src dest : String) :
    List (List String) × Except String Unit :=
  match mkdirRes dest with
  | .error e => ([], .error e)
  | .ok _ =>
    if strEnds src ".zip" then
      let c := ["unzip", "-o", src, "-d", dest]
      ([c], Except.map (fun _ => ()) (execRes c))
    else if strEnds src ".7z" then
      let c := ["7z", "x", src, "-o" ++ dest]
      ([c], Except.map (fun _ => ()) (execRes c))
    else ([], .error ("unrecongized file type " ++ src))

/-- `ConfigPatches` of `main.go`: a Go map from relative file path to patch
list, modelled extensionally as a total function; a key absent from the map
is the empty list (Go's nil slice). -/
abbrev ConfigPatches := String → List ConfigPatch

/-- `mergeConfigPatches` (`main.go` lines 485-499, identical to
`Api.MergeConfigPatches` of the helper variant): start from an empty map
and append each input map's list to the accumulator, per key, in argument
order.  Iterating a Go map visits each key exactly once in some order, and
the per-key result is order-independent, so extensionally the accumulator
gains `currMap k` at every key `k`. -/
def mergeConfigPatches (maps : List ConfigPatches) : ConfigPatches :=
  maps.foldl (fun data currMap => fun k => data k ++ currMap k) (fun _ => [])

/-- `applyConfigPatch` (`main.go` lines 423-460): reject a relative path
starting with a separator before touching any file; otherwise join it under
the spt tree, `Lstat` it, read it, apply the JSON patch (the evanphx
json-patch library, abstracted as `applyJson`) and write the result back. -/
def applyConfigPatch (pathSpt : String) (joinP : String → String → String)
    (applyJson : ConfigPatch → String → Except String String)
    (fs : Fs) (relPath : String) (patch : ConfigPatch) :
    Fs × List Ev × Except String Unit :=
  if strStarts relPath "/" then
    (fs, [], .error ("patch path " ++ relPath ++ " not relative"))
  else
    let path := joinP pathSpt relPath
    match fs path with
    | none => (fs, [Ev.stat path], .error ("lstat " ++ path ++ ": no such file or directory"))
    | some doc =>
      match applyJson patch doc with
      | .error e => (fs, [Ev.stat path, Ev.read path], .error e)
      | .ok newDoc =>
        (fsUpdate fs path newDoc,
         [Ev.stat path, Ev.read path, Ev.write path newDoc], .ok ())

/-- Inner loop of `applyConfigPatches` (`main.go` lines 467-475) over one
file's patches: every patch is attempted, each attempt is logged together
with its outcome, and a failure only sets the `failed` flag. -/
def applyPatchSeq (pathSpt : String) (joinP : String → String → String)
    (applyJson : ConfigPatch → String → Except String String) (relPath : String) :
    Fs × List Ev × Bool → List ConfigPatch → Fs × List Ev × Bool
  | st, [] => st
  | st, patch :: rest =>
    let res := applyConfigPatch pathSpt joinP applyJson st.1 relPath patch
    applyPatchSeq pathSpt joinP applyJson relPath
      (res.1, st.2.1 ++ res.2.1 ++ [Ev.logPatch relPath patch res.2.2],
       st.2.2 || !(exOk res.2.2)) rest

/-- Outer loop of `applyConfigPatches` over the map entries (the entry list
abstracts the Go map iteration order). -/
def applyFileSeq (pathSpt : String) (joinP : String → String → String)
    (applyJson : ConfigPatch → String → Except String String) :
    Fs × List Ev × Bool → List (String × List ConfigPatch) → Fs × List Ev × Bool
  | st, [] => st
  | st, entry :: rest =>
    applyFileSeq pathSpt joinP applyJson
      (applyPatchSeq pathSpt joinP applyJson entry.1 st entry.2) rest

/-- `applyConfigPatches` (`main.go` lines 463-482): attempt every patch of
every file, remember in a flag whether any failed, and finish with the
fixed aggregate error `failed to apply patches` when the flag is set. -/
def applyConfigPatches (pathSpt : String) (joinP : String → String → String)
    (applyJson : ConfigPatch → String → Except String String)
    (fs : Fs) (cfgs : List (String × List ConfigPatch)) :
    Fs × List Ev × Except String Unit :=
  let st := applyFileSeq pathSpt joinP applyJson (fs, [], false) cfgs
  (st.1, st.2.1, if st.2.2 then .error "failed to apply patches" else .ok ())

end Entrypoint

theorem splitOnChar_ne_nil (sep : Char) (l : List Char) : splitOnChar sep l ≠ [] := by
  cases l with
  | nil => simp [splitOnChar]
  | cons c cs =>
    by_cases h : c = sep
    · simp [splitOnChar, h]
    · simp only [splitOnChar, if_neg h]
      cases splitOnChar sep cs <;> simp

/-- Splitting and rejoining on the same separator is the identity, so the
read-split-join-write cycle of the cfg patcher preserves untouched content. -/
theorem joinChar_splitOnChar (sep : Char) (l : List Char) :
    joinChar sep (splitOnChar sep l) = l := by
  induction l with
  | nil => rfl
  | cons c cs ih =>
    by_cases h : c = sep
    · subst h
      simp only [splitOnChar, if_pos rfl]
      cases hs : splitOnChar c cs with
      | nil => exact absurd hs (splitOnChar_ne_nil c cs)
      | cons p ps =>
        rw [hs] at ih
        simpa [joinChar] using ih
    · simp only [splitOnChar, if_neg h]
      cases hs : splitOnChar sep cs with
      | nil => exact absurd hs (splitOnChar_ne_nil sep cs)
      | cons p ps =>
        rw [hs] at ih
        cases ps with
        | nil => simpa [joinChar] using congrArg (c :: ·) ih
        | cons q qs => simpa [joinChar] using congrArg (c :: ·) ih

theorem cfgScan_eq_aux (sec key v : List Char) (cur : Option (List Char))
    (lines : List (List Char)) :
    Patcher.cfgScan sec key v cur lines =
      match firstMatchAux sec key cur lines with
      | some i => lines.set i (key ++ [' ', '=', ' '] ++ v)
      | none => lines := by
  induction lines generalizing cur with
  | nil => rfl
  | cons line rest ih =>
    simp only [Patcher.cfgScan, firstMatchAux]
    cases hh : headerName (trimChars line) with
    | some s =>
      simp only [ih (some s)]
      cases firstMatchAux sec key (some s) rest <;> simp [List.set]
    | none =>
      by_cases hc : cur = some sec ∧ leftKey (trimChars line) = key
      · simp [hc, List.set]
      · simp only [if_neg hc, ih cur]
        cases firstMatchAux sec key cur rest <;> simp [List.set]

theorem lineMatchesFrom_zero (sec key : List Char) (cur : Option (List Char))
    (line : List Char) (rest : List (List Char)) :
    lineMatchesFrom sec key cur (line :: rest) 0 =
      decide (headerName (trimChars line) = none
        ∧ cur = some sec ∧ leftKey (trimChars line) = key) := by
  simp [lineMatchesFrom, sectionAtFrom]

theorem lineMatchesFrom_succ (sec key : List Char) (cur : Option (List Char))
    (line : List Char) (rest : List (List Char)) (i : Nat) :
    lineMatchesFrom sec key cur (line :: rest) (i + 1) =
      lineMatchesFrom sec key (stepSection cur line) rest i := by
  simp [lineMatchesFrom, sectionAtFrom, List.take_succ_cons]

theorem firstMatchAux_eq_find (sec key : List Char) (cur : Option (List Char))
    (lines : List (List Char)) :
    firstMatchAux sec key cur lines =
      (List.range lines.length).find? (lineMatchesFrom sec key cur lines) := by
  induction lines generalizing cur with
  | nil =>
    simp only [firstMatchAux, List.length_nil, List.range_zero, List.find?_nil]
  | cons line rest ih =>
    rw [List.length_cons, List.range_succ_eq_map]
    cases hh : headerName (trimChars line) with
    | some s =>
      have h0 : lineMatchesFrom sec key cur (line :: rest) 0 = false := by
        rw [lineMatchesFrom_zero, hh]; simp
      simp only [firstMatchAux, hh]
      rw [List.find?_cons_of_neg _ (by simp [h0]), List.find?_map]
      have hcomp : (lineMatchesFrom sec key cur (line :: rest)) ∘ Nat.succ =
          lineMatchesFrom sec key (some s) rest := by
        funext i
        simp only [Function.comp_apply]
        rw [lineMatchesFrom_succ]
        simp [stepSection, hh]
      rw [hcomp, ih (some s)]
    | none =>
      by_cases hc : cur = some sec ∧ leftKey (trimChars line) = key
      · have h0 : lineMatchesFrom sec key cur (line :: rest) 0 = true := by
          rw [lineMatchesFrom_zero, hh]
          simp [hc.1, hc.2]
        simp only [firstMatchAux, hh, if_pos hc]
        rw [List.find?_cons_of_pos _ (by simp [h0])]
      · have h0 : lineMatchesFrom sec key cur (line :: rest) 0 = false := by
          rw [lineMatchesFrom_zero, hh]
          simp only [decide_eq_false_iff_not]
          intro h
          exact hc ⟨h.2.1, h.2.2⟩
        simp only [firstMatchAux, hh, if_neg hc]
        rw [List.find?_cons_of_neg _ (by simp [h0]), List.find?_map]
        have hcomp : (lineMatchesFrom sec key cur (line :: rest)) ∘ Nat.succ =
            lineMatchesFrom sec key cur rest := by
          funext i
          simp only [Function.comp_apply]
          rw [lineMatchesFrom_succ]
          simp [stepSection, hh]
        rw [hcomp, ih cur]

/-- Single-pass scan of the source equals the indexed characterisation. -/
theorem cfgScan_eq_spec (sec key v : List Char) (lines : List (List Char)) :
    Patcher.cfgScan sec key v none lines = cfgSpecApply sec key v lines := by
  rw [cfgScan_eq_aux, firstMatchAux_eq_find]
  rfl

/-- A hit returned by `find?` over `List.range` is the least hit. -/
theorem find?_range_least (p : Nat → Bool) (n i : Nat)
    (h : (List.range n).find? p = some i) :
    p i = true ∧ ∀ j, j < i → p j = false := by
  induction n generalizing p i with
  | zero => simp [List.range_zero] at h
  | succ n ih =>
    rw [List.range_succ_eq_map] at h
    by_cases h0 : p 0 = true
    · rw [List.find?_cons_of_pos _ h0] at h
      cases h
      exact ⟨h0, fun j hj => absurd hj (Nat.not_lt_zero j)⟩
    · rw [List.find?_cons_of_neg _ (by simp [Bool.not_eq_true] at h0 ⊢; exact h0),
        List.find?_map] at h
      cases hf : (List.range n).find? (p ∘ Nat.succ) with
      | none => rw [hf] at h; simp at h
      | some j =>
        rw [hf] at h
        simp only [Option.map_some'] at h
        cases h
        obtain ⟨hp, hleast⟩ := ih (p ∘ Nat.succ) j hf
        refine ⟨hp, fun k hk => ?_⟩
        cases k with
        | zero => simpa [Bool.not_eq_true] using h0
        | succ m => exact hleast m (Nat.lt_of_succ_lt_succ hk)

/-- Validated replace patches reduce to the indexed characterisation. -/
theorem applyCfgPatch_replace (S K : List Char) (V p content : String)
    (hp : splitOnChar '/' p.data = [[], S, K]) :
    Patcher.applyCfgPatch ⟨"replace", p, V⟩ content =
      .ok (String.mk (joinChar '\n'
        (cfgSpecApply S K V.data (splitOnChar '\n' content.data)))) := by
  simp [Patcher.applyCfgPatch, Patcher.validateCfgPatch, hp, cfgScan_eq_spec]

/-- C1: for every cfg file and every replace patch with target section `S`
and key `K` (path split `["", S, K]`), the apply operation equals the
indexed characterisation: the line at the first index that is not a header,
lies in section `S` (sections tracked at each header line) and has trimmed
left-of-`=` text `K` is rewritten to the literal `K = value`, every other
line (headers, other keys, later duplicates of `K`) is written back
unchanged; moreover the chosen index really is the first matching one. -/
theorem cfg_replace_rewrites_first_match (S K : List Char) (V p content : String)
    (hp : splitOnChar '/' p.data = [[], S, K]) :
    Patcher.applyCfgPatch ⟨"replace", p, V⟩ content =
      .ok (String.mk (joinChar '\n'
        (cfgSpecApply S K V.data (splitOnChar '\n' content.data)))) ∧
    ∀ i, firstMatchIdx S K (splitOnChar '\n' content.data) = some i →
      lineMatches S K (splitOnChar '\n' content.data) i = true ∧
      ∀ j, j < i → lineMatches S K (splitOnChar '\n' content.data) j = false := by
  refine ⟨applyCfgPatch_replace S K V p content hp, ?_⟩
  intro i hi
  simp only [firstMatchIdx] at hi
  exact find?_range_least _ _ i hi

/-- Witness for `cfg_replace_rewrites_first_match`: the spec's own example
rewrites only the `Port` line of section `[Http]`. -/
theorem cfg_replace_rewrites_first_match_witness :
    Patcher.applyCfgPatch ⟨"replace", "/Http/Port", "8080"⟩
        "[Http]\nPort = 6969\nHost = local"
      = .ok "[Http]\nPort = 8080\nHost = local" := by
  have h := cfg_replace_rewrites_first_match "Http".data "Port".data "8080"
    "/Http/Port" "[Http]\nPort = 6969\nHost = local" (by rfl)
  exact h.1.trans (by rfl)

/-- C10: a validated replace patch whose section/key pair matches no line
is a silent no-op: no error, and the file is written back with its content
unchanged, indistinguishable from a successful replacement. -/
theorem cfg_patch_no_match_noop (S K : List Char) (V p content : String)
    (hp : splitOnChar '/' p.data = [[], S, K])
    (hnone : firstMatchIdx S K (splitOnChar '\n' content.data) = none) :
    Patcher.applyCfgPatch ⟨"replace", p, V⟩ content = .ok content := by
  rw [applyCfgPatch_replace S K V p content hp]
  simp only [cfgSpecApply, hnone]
  rw [joinChar_splitOnChar]

/-- Witness for `cfg_patch_no_match_noop`: a patch for a missing key
returns the file unchanged and no error. -/
theorem cfg_patch_no_match_noop_witness :
    Patcher.applyCfgPatch ⟨"replace", "/Http/Missing", "1"⟩ "[Http]\nPort = 1"
      = .ok "[Http]\nPort = 1" :=
  cfg_patch_no_match_noop "Http".data "Missing".data "1" "/Http/Missing"
    "[Http]\nPort = 1" (by rfl) (by rfl)

/-- C5 counterexample: the claim says any path not exactly of the shape
`/section/key` is rejected, but the code only counts the fields of
`path.split("/")`, so the slash-free-headed path `a/b/c` is accepted (with
section `b` and key `c`) and the apply returns successfully. -/
theorem cfg_path_without_leading_slash_accepted :
    Patcher.applyCfgPatch ⟨"replace", "a/b/c", "v"⟩ "x" = .ok "x" := by
  rfl

/-- C5 as amended: a cfg patch is accepted exactly when its op is `replace`
and its path splits on `/` into exactly three fields; a leading slash is
not required, and any violation is an error raised before any content is
produced. -/
theorem cfg_patch_validation_iff (patch : ConfigPatch) (content : String) :
    (∃ out, Patcher.applyCfgPatch patch content = .ok out) ↔
      (patch.op = "replace" ∧ (splitOnChar '/' patch.path.data).length = 3) := by
  constructor
  · rintro ⟨out, hout⟩
    unfold Patcher.applyCfgPatch Patcher.validateCfgPatch at hout
    by_cases hop : patch.op = "replace"
    · refine ⟨hop, ?_⟩
      rw [if_pos hop] at hout
      rcases hsp : splitOnChar '/' patch.path.data with _ | ⟨a, _ | ⟨b, _ | ⟨c, _ | ⟨d, t⟩⟩⟩⟩ <;>
        rw [hsp] at hout <;> simp_all
    · rw [if_neg hop] at hout
      simp at hout
  · rintro ⟨hop, hlen⟩
    obtain ⟨a, b, c, habc⟩ := List.length_eq_three.mp hlen
    unfold Patcher.applyCfgPatch Patcher.validateCfgPatch
    rw [if_pos hop, habc]
    exact ⟨_, rfl⟩

/-- C2: merging two `ConfigPatches` maps concatenates per key, built-in
patches first, user patches appended, nothing dropped or reordered. -/
theorem merge_config_patches_concat (m1 m2 : Entrypoint.ConfigPatches) (k : String) :
    Entrypoint.mergeConfigPatches [m1, m2] k = m1 k ++ m2 k := by
  rfl

/-- C9 counterexample: for a `.tar` archive the code does return a fatal
error without invoking an extractor, but its message is the misspelled
`unrecongized file type ...` of the source, in which the claim's quoted
phrase `unrecognized` does not occur. -/
theorem extract_error_message_spelling :
    Entrypoint.extract (fun _ => .ok ()) (fun _ => .ok "") "foo.tar" "dest"
      = ([], .error "unrecongized file type foo.tar") ∧
    listHasInfix "unrecognized".data "unrecongized file type foo.tar".data = false := by
  exact ⟨rfl, rfl⟩

/-- C9 as amended: once the destination directory is ensured, the extractor
is chosen purely from the filename suffix — `.zip` runs `unzip`, otherwise
`.7z` runs `7z`, and any other suffix yields the fatal error spelled
`unrecongized file type <src>` in the source with no extractor invoked. -/
theorem extract_suffix_dispatch (mkdirRes : String → Except String Unit)
    (execRes : List String → Except String String) (src dest : String)
    (hmk : mkdirRes dest = .ok ()) :
    (strEnds src ".zip" = true →
      Entrypoint.extract mkdirRes execRes src dest =
        ([["unzip", "-o", src, "-d", dest]],
          Except.map (fun _ => ()) (execRes ["unzip", "-o", src, "-d", dest]))) ∧
    (strEnds src ".zip" = false → strEnds src ".7z" = true →
      Entrypoint.extract mkdirRes execRes src dest =
        ([["7z", "x", src, "-o" ++ dest]],
          Except.map (fun _ => ()) (execRes ["7z", "x", src, "-o" ++ dest]))) ∧
    (strEnds src ".zip" = false → strEnds src ".7z" = false →
      Entrypoint.extract mkdirRes execRes src dest =
        ([], .error ("unrecongized file type " ++ src))) := by
  unfold Entrypoint.extract
  rw [hmk]
  refine ⟨fun h1 => ?_, fun h1 h2 => ?_, fun h1 h2 => ?_⟩
  · simp [h1]
  · simp [h1, h2]
  · simp [h1, h2]

/-- Witness for `extract_suffix_dispatch`: a `.tar` source hits the fatal
error branch with an empty command trace. -/
theorem extract_suffix_dispatch_witness :
    Entrypoint.extract (fun _ => .ok ()) (fun _ => .ok "") "m.tar" "d"
      = ([], .error "unrecongized file type m.tar") := by
  have h := extract_suffix_dispatch (fun _ => .ok ()) (fun _ => .ok "") "m.tar" "d" rfl
  exact (h.2.2 (by rfl) (by rfl)).trans (by rfl)

theorem applyConfigPatch_absolute (pathSpt : String) (joinP : String → String → String)
    (applyJson : ConfigPatch → String → Except String String) (fs : Fs)
    (relPath : String) (patch : ConfigPatch) (h : strStarts relPath "/" = true) :
    Entrypoint.applyConfigPatch pathSpt joinP applyJson fs relPath patch
      = (fs, [], .error ("patch path " ++ relPath ++ " not relative")) := by
  simp [Entrypoint.applyConfigPatch, h]

theorem applyPatch_absolute (sptFolder : String) (joinP : String → String → String)
    (jsonApply : String → ConfigPatch → Except String String) (fs : Fs)
    (relPath : String) (patch : ConfigPatch) (h : strStarts relPath "/" = true) :
    Patcher.applyPatch sptFolder joinP jsonApply fs relPath patch
      = (fs, [], .error "path is not absolute") := by
  simp [Patcher.applyPatch, Patcher.normalizePath, h]

theorem applyPatchSeq_failed_mono (pathSpt : String) (joinP : String → String → String)
    (applyJson : ConfigPatch → String → Except String String) (relPath : String)
    (ps : List ConfigPatch) :
    ∀ st : Fs × List Ev × Bool, st.2.2 = true →
      (Entrypoint.applyPatchSeq pathSpt joinP applyJson relPath st ps).2.2 = true := by
  induction ps with
  | nil => intro st h; simpa [Entrypoint.applyPatchSeq] using h
  | cons p rest ih =>
    intro st h
    simp only [Entrypoint.applyPatchSeq]
    exact ih _ (by simp [h])

theorem applyFileSeq_failed_mono (pathSpt : String) (joinP : String → String → String)
    (applyJson : ConfigPatch → String → Except String String)
    (cfgs : List (String × List ConfigPatch)) :
    ∀ st : Fs × List Ev × Bool, st.2.2 = true →
      (Entrypoint.applyFileSeq pathSpt joinP applyJson st cfgs).2.2 = true := by
  induction cfgs with
  | nil => intro st h; simpa [Entrypoint.applyFileSeq] using h
  | cons entry rest ih =>
    intro st h
    simp only [Entrypoint.applyFileSeq]
    exact ih _ (applyPatchSeq_failed_mono _ _ _ _ _ _ h)

theorem applyPatchSeq_absolute (pathSpt : String) (joinP : String → String → String)
    (applyJson : ConfigPatch → String → Except String String) (relPath : String)
    (h : strStarts relPath "/" = true) (p : ConfigPatch) (rest : List ConfigPatch)
    (st : Fs × List Ev × Bool) :
    (Entrypoint.applyPatchSeq pathSpt joinP applyJson relPath st (p :: rest)).2.2 = true := by
  simp only [Entrypoint.applyPatchSeq]
  refine applyPatchSeq_failed_mono _ _ _ _ _ _ ?_
  simp [applyConfigPatch_absolute _ _ _ _ _ _ h, exOk]

theorem applyFileSeq_absolute (pathSpt : String) (joinP : String → String → String)
    (applyJson : ConfigPatch → String → Except String String)
    (relPath : String) (h : strStarts relPath "/" = true)
    (ps : List ConfigPatch) (hps : ps ≠ [])
    (cfgs : List (String × List ConfigPatch)) (hmem : (relPath, ps) ∈ cfgs) :
    ∀ st : Fs × List Ev × Bool,
      (Entrypoint.applyFileSeq pathSpt joinP applyJson st cfgs).2.2 = true := by
  induction cfgs with
  | nil => cases hmem
  | cons entry rest ih =>
    intro st
    rcases List.mem_cons.mp hmem with heq | hmem2
    · subst heq
      cases ps with
      | nil => exact absurd rfl hps
      | cons p ps2 =>
        simp only [Entrypoint.applyFileSeq]
        exact applyFileSeq_failed_mono _ _ _ _ _
          (applyPatchSeq_absolute _ _ _ _ h _ _ _)
    · simp only [Entrypoint.applyFileSeq]
      exact ih hmem2 _

theorem applyPatchesFile_absolute (sptFolder : String) (joinP : String → String → String)
    (jsonApply : String → ConfigPatch → Except String String) (fs : Fs)
    (relPath : String) (h : strStarts relPath "/" = true)
    (p : ConfigPatch) (rest : List ConfigPatch) :
    (Patcher.applyPatchesFile sptFolder joinP jsonApply fs relPath (p :: rest)).2.2
      = .error "path is not absolute" := by
  simp [Patcher.applyPatchesFile, applyPatch_absolute _ _ _ _ _ _ h]

theorem applyPatches_absolute (sptFolder : String) (joinP : String → String → String)
    (jsonApply : String → ConfigPatch → Except String String)
    (relPath : String) (h : strStarts relPath "/" = true)
    (ps : List ConfigPatch) (hps : ps ≠ [])
    (cfgs : List (String × List ConfigPatch)) (hmem : (relPath, ps) ∈ cfgs) :
    ∀ fs : Fs, ∃ e,
      (Patcher.applyPatches sptFolder joinP jsonApply fs cfgs).2.2 = .error e := by
  induction cfgs with
  | nil => cases hmem
  | cons entry rest ih =>
    intro fs
    rcases List.mem_cons.mp hmem with heq | hmem2
    · subst heq
      cases ps with
      | nil => exact absurd rfl hps
      | cons p ps2 =>
        refine ⟨"path is not absolute", ?_⟩
        simp only [Patcher.applyPatches]
        rw [applyPatchesFile_absolute _ _ _ _ _ h p ps2]
    · simp only [Patcher.applyPatches]
      cases hres : (Patcher.applyPatchesFile sptFolder joinP jsonApply fs entry.1 entry.2).2.2 with
      | error e => exact ⟨e, rfl⟩
      | ok u =>
        obtain ⟨e, he⟩ := ih hmem2
          (Patcher.applyPatchesFile sptFolder joinP jsonApply fs entry.1 entry.2).1
        exact ⟨e, by simpa using he⟩

/-- C3: a patch whose target file path starts with a path separator is
rejected by both dialects before any file access — the Go engine and the
TS patcher each return an error with an empty event trace (no stat, read
or write) — and in both engines such an entry makes the whole apply step
fail: the Go engine's aggregate error fires and the TS patcher throws. -/
theorem absolute_patch_path_rejected (relPath : String)
    (h : strStarts relPath "/" = true) (patch : ConfigPatch) :
    (∀ (pathSpt : String) (joinP : String → String → String)
        (applyJson : ConfigPatch → String → Except String String) (fs : Fs),
      Entrypoint.applyConfigPatch pathSpt joinP applyJson fs relPath patch
        = (fs, [], .error ("patch path " ++ relPath ++ " not relative"))) ∧
    (∀ (sptFolder : String) (joinP : String → String → String)
        (jsonApply : String → ConfigPatch → Except String String) (fs : Fs),
      Patcher.applyPatch sptFolder joinP jsonApply fs relPath patch
        = (fs, [], .error "path is not absolute")) ∧
    (∀ (pathSpt : String) (joinP : String → String → String)
        (applyJson : ConfigPatch → String → Except String String) (fs : Fs)
        (cfgs : List (String × List ConfigPatch)) (ps : List ConfigPatch),
      (relPath, ps) ∈ cfgs → ps ≠ [] →
      (Entrypoint.applyConfigPatches pathSpt joinP applyJson fs cfgs).2.2
        = .error "failed to apply patches") ∧
    (∀ (sptFolder : String) (joinP : String → String → String)
        (jsonApply : String → ConfigPatch → Except String String) (fs : Fs)
        (cfgs : List (String × List ConfigPatch)) (ps : List ConfigPatch),
      (relPath, ps) ∈ cfgs → ps ≠ [] →
      ∃ e, (Patcher.applyPatches sptFolder joinP jsonApply fs cfgs).2.2 = .error e) := by
  refine ⟨fun pathSpt joinP applyJson fs => applyConfigPatch_absolute _ _ _ _ _ _ h,
    fun sptFolder joinP jsonApply fs => applyPatch_absolute _ _ _ _ _ _ h,
    fun pathSpt joinP applyJson fs cfgs ps hmem hps => ?_,
    fun sptFolder joinP jsonApply fs cfgs ps hmem hps =>
      applyPatches_absolute _ _ _ _ h _ hps _ hmem fs⟩
  have hflag := applyFileSeq_absolute pathSpt joinP applyJson relPath h ps hps cfgs hmem
    (fs, [], false)
  simp [Entrypoint.applyConfigPatches, hflag]

/-- Witness for `absolute_patch_path_rejected`: a patch targeting
`/etc/passwd` is rejected by both dialects with an empty trace, and a map
holding it fails the whole apply in both engines. -/
theorem absolute_patch_path_rejected_witness :
    (Entrypoint.applyConfigPatch "spt" (fun a b => a ++ "/" ++ b) (fun _ d => .ok d)
        (fun _ => none) "/etc/passwd" ⟨"replace", "/ip", "0.0.0.0"⟩
      = ((fun _ => none), [], .error "patch path /etc/passwd not relative")) ∧
    (Patcher.applyPatch "spt" (fun a b => a ++ "/" ++ b) (fun _ _ => .ok "")
        (fun _ => none) "/etc/passwd" ⟨"replace", "/ip", "0.0.0.0"⟩
      = ((fun _ => none), [], .error "path is not absolute")) ∧
    ((Entrypoint.applyConfigPatches "spt" (fun a b => a ++ "/" ++ b) (fun _ d => .ok d)
        (fun _ => none) [("/etc/passwd", [⟨"replace", "/ip", "0.0.0.0"⟩])]).2.2
      = .error "failed to apply patches") ∧
    (∃ e, (Patcher.applyPatches "spt" (fun a b => a ++ "/" ++ b) (fun _ _ => .ok "")
        (fun _ => none) [("/etc/passwd", [⟨"replace", "/ip", "0.0.0.0"⟩])]).2.2
      = .error e) := by
  have h := absolute_patch_path_rejected "/etc/passwd" (by rfl) ⟨"replace", "/ip", "0.0.0.0"⟩
  exact ⟨h.1 "spt" (fun a b => a ++ "/" ++ b) (fun _ d => .ok d) (fun _ => none),
    h.2.1 "spt" (fun a b => a ++ "/" ++ b) (fun _ _ => .ok "") (fun _ => none),
    h.2.2.1 "spt" (fun a b => a ++ "/" ++ b) (fun _ d => .ok d) (fun _ => none)
      [("/etc/passwd", [⟨"replace", "/ip", "0.0.0.0"⟩])] [⟨"replace", "/ip", "0.0.0.0"⟩]
      (by simp) (by simp),
    h.2.2.2 "spt" (fun a b => a ++ "/" ++ b) (fun _ _ => .ok "") (fun _ => none)
      [("/etc/passwd", [⟨"replace", "/ip", "0.0.0.0"⟩])] [⟨"replace", "/ip", "0.0.0.0"⟩]
      (by simp) (by simp)⟩

theorem applyConfigPatch_no_log (pathSpt : String) (joinP : String → String → String)
    (applyJson : ConfigPatch → String → Except String String) (fs : Fs)
    (relPath : String) (patch : ConfigPatch) :
    ∀ ev ∈ (Entrypoint.applyConfigPatch pathSpt joinP applyJson fs relPath patch).2.1,
      Ev.isLog ev = false := by
  simp only [Entrypoint.applyConfigPatch]
  split
  · simp
  · split
    · simp [Ev.isLog]
    · split
      · simp [Ev.isLog]
      · simp [Ev.isLog]

theorem isLog_of_isFailLog (ev : Ev) (h : Ev.isFailLog ev = true) : Ev.isLog ev = true := by
  cases ev with
  | logPatch relPath patch result => rfl
  | stat p => simp [Ev.isFailLog] at h
  | read p => simp [Ev.isFailLog] at h
  | write p c => simp [Ev.isFailLog] at h

theorem logEntry_eq_none (ev : Ev) (h : Ev.isLog ev = false) : Ev.logEntry ev = none := by
  cases ev with
  | logPatch relPath patch result => simp [Ev.isLog] at h
  | stat p => rfl
  | read p => rfl
  | write p c => rfl

theorem isFailLog_logPatch (relPath : String) (patch : ConfigPatch) (r : Except String Unit) :
    Ev.isFailLog (Ev.logPatch relPath patch r) = !(exOk r) := by
  cases r <;> rfl

/-- Run decomposition for the inner loop: the trace grows by a block `d`
holding one log per attempted patch, in order, and the `failed` flag ends
up set exactly when it was set before or some attempt in `d` failed. -/
theorem applyPatchSeq_spec (pathSpt : String) (joinP : String → String → String)
    (applyJson : ConfigPatch → String → Except String String) (relPath : String)
    (ps : List ConfigPatch) :
    ∀ st : Fs × List Ev × Bool, ∃ d : List Ev,
      (Entrypoint.applyPatchSeq pathSpt joinP applyJson relPath st ps).2.1 = st.2.1 ++ d ∧
      (Entrypoint.applyPatchSeq pathSpt joinP applyJson relPath st ps).2.2
        = (st.2.2 || d.any Ev.isFailLog) ∧
      d.filterMap Ev.logEntry = ps.map (fun p => (relPath, p)) := by
  induction ps with
  | nil =>
    intro st
    exact ⟨[], by simp [Entrypoint.applyPatchSeq],
      by simp [Entrypoint.applyPatchSeq], by simp⟩
  | cons p rest ih =>
    intro st
    have hnolog := applyConfigPatch_no_log pathSpt joinP applyJson st.1 relPath p
    simp only [Entrypoint.applyPatchSeq]
    generalize hgen : Entrypoint.applyConfigPatch pathSpt joinP applyJson st.1 relPath p = res
    rw [hgen] at hnolog
    obtain ⟨d, hd1, hd2, hd3⟩ := ih
      (res.1, st.2.1 ++ res.2.1 ++ [Ev.logPatch relPath p res.2.2],
        st.2.2 || !(exOk res.2.2))
    have hresfail : res.2.1.any Ev.isFailLog = false := by
      rw [List.any_eq_false]
      intro ev hev hf
      have hlog := isLog_of_isFailLog ev hf
      rw [hnolog ev hev] at hlog
      cases hlog
    have hresmap : res.2.1.filterMap Ev.logEntry = [] := by
      rw [List.filterMap_eq_nil_iff]
      intro ev hev
      exact logEntry_eq_none ev (hnolog ev hev)
    refine ⟨res.2.1 ++ Ev.logPatch relPath p res.2.2 :: d, ?_, ?_, ?_⟩
    · rw [hd1]
      simp
    · rw [hd2]
      simp [List.any_append, List.any_cons, isFailLog_logPatch, hresfail, Bool.or_assoc]
    · simp [List.filterMap_append, List.filterMap_cons, hresmap, hd3, Ev.logEntry]

/-- Run decomposition for the outer loop over the map entries. -/
theorem applyFileSeq_spec (pathSpt : String) (joinP : String → String → String)
    (applyJson : ConfigPatch → String → Except String String)
    (cfgs : List (String × List ConfigPatch)) :
    ∀ st : Fs × List Ev × Bool, ∃ d : List Ev,
      (Entrypoint.applyFileSeq pathSpt joinP applyJson st cfgs).2.1 = st.2.1 ++ d ∧
      (Entrypoint.applyFileSeq pathSpt joinP applyJson st cfgs).2.2
        = (st.2.2 || d.any Ev.isFailLog) ∧
      d.filterMap Ev.logEntry
        = cfgs.flatMap (fun e => e.2.map (fun p => (e.1, p))) := by
  induction cfgs with
  | nil =>
    intro st
    exact ⟨[], by simp [Entrypoint.applyFileSeq],
      by simp [Entrypoint.applyFileSeq], by simp⟩
  | cons entry rest ih =>
    intro st
    simp only [Entrypoint.applyFileSeq]
    obtain ⟨d1, h11, h12, h13⟩ := applyPatchSeq_spec pathSpt joinP applyJson entry.1 entry.2 st
    obtain ⟨d2, h21, h22, h23⟩ :=
      ih (Entrypoint.applyPatchSeq pathSpt joinP applyJson entry.1 st entry.2)
    refine ⟨d1 ++ d2, ?_, ?_, ?_⟩
    · rw [h21, h11]
      simp
    · rw [h22, h12]
      simp [List.any_append, Bool.or_assoc]
    · simp [List.filterMap_append, h13, h23]

/-- C4 as amended: the Go patch engine attempts every patch of every file —
its log trace records exactly one attempt per declared patch, in order,
regardless of failures — and it returns the single fixed aggregate error
`failed to apply patches` exactly when at least one attempted patch failed,
returning success exactly when no attempt failed; the failed-file count
never appears in the error. -/
theorem patch_engine_attempts_all_files (pathSpt : String)
    (joinP : String → String → String)
    (applyJson : ConfigPatch → String → Except String String) (fs : Fs)
    (cfgs : List (String × List ConfigPatch)) :
    ((Entrypoint.applyConfigPatches pathSpt joinP applyJson fs cfgs).2.1.filterMap Ev.logEntry
      = cfgs.flatMap (fun e => e.2.map (fun p => (e.1, p)))) ∧
    ((Entrypoint.applyConfigPatches pathSpt joinP applyJson fs cfgs).2.2
        = .error "failed to apply patches"
      ↔ ∃ ev ∈ (Entrypoint.applyConfigPatches pathSpt joinP applyJson fs cfgs).2.1,
          Ev.isFailLog ev = true) ∧
    ((Entrypoint.applyConfigPatches pathSpt joinP applyJson fs cfgs).2.2 = .ok ()
      ↔ ∀ ev ∈ (Entrypoint.applyConfigPatches pathSpt joinP applyJson fs cfgs).2.1,
          Ev.isFailLog ev = false) := by
  obtain ⟨d, h1, h2, h3⟩ := applyFileSeq_spec pathSpt joinP applyJson cfgs (fs, [], false)
  have htr : (Entrypoint.applyConfigPatches pathSpt joinP applyJson fs cfgs).2.1 = d := by
    simp only [Entrypoint.applyConfigPatches]
    rw [h1]
    simp
  have hres : (Entrypoint.applyConfigPatches pathSpt joinP applyJson fs cfgs).2.2
      = if d.any Ev.isFailLog then .error "failed to apply patches" else .ok () := by
    simp only [Entrypoint.applyConfigPatches]
    rw [h2]
    simp
  refine ⟨by rw [htr, h3], ?_, ?_⟩
  · rw [htr, hres]
    cases hany : d.any Ev.isFailLog with
    | false =>
      rw [List.any_eq_false] at hany
      constructor
      · intro h
        exact Except.noConfusion h
      · rintro ⟨ev, hev, hf⟩
        exact absurd hf (hany ev hev)
    | true =>
      rw [List.any_eq_true] at hany
      exact ⟨fun _ => hany, fun _ => rfl⟩
  · rw [htr, hres]
    cases hany : d.any Ev.isFailLog with
    | false =>
      rw [List.any_eq_false] at hany
      constructor
      · intro _ ev hev
        simpa using hany ev hev
      · intro _
        rfl
    | true =>
      rw [List.any_eq_true] at hany
      obtain ⟨ev, hev, hf⟩ := hany
      constructor
      · intro h
        exact Except.noConfusion h
      · intro hall
        rw [hall ev hev] at hf
        exact Bool.noConfusion hf

/-- C4 counterexample: the aggregate error does not report the count of
failed files — with two failing files the message is the fixed
`failed to apply patches`, which contains no `2`, and a single failing
file produces the identical message. -/
theorem aggregate_error_lacks_count :
    ((Entrypoint.applyConfigPatches "spt" (fun a b => a ++ "/" ++ b) (fun _ d => .ok d)
        (fun _ => none)
        [("/a", [⟨"replace", "/x", "1"⟩]), ("/b", [⟨"replace", "/x", "1"⟩])]).2.2
      = .error "failed to apply patches") ∧
    (listHasInfix "2".data "failed to apply patches".data = false) ∧
    ((Entrypoint.applyConfigPatches "spt" (fun a b => a ++ "/" ++ b) (fun _ d => .ok d)
        (fun _ => none) [("/a", [⟨"replace", "/x", "1"⟩])]).2.2
      = .error "failed to apply patches") := by
  exact ⟨rfl, rfl, rfl⟩

theorem updateNonRootUser_uid_zero (currentUser : Entrypoint.User)
    (sptUserRes : Except String Entrypoint.User)
    (execRes : List String → Except String String) (user : Entrypoint.User)
    (h : user.Uid = 0) :
    Entrypoint.updateNonRootUser currentUser sptUserRes execRes user
      = ([], .error "refusing to update spt user to uid 0") := by
  unfold Entrypoint.updateNonRootUser
  rw [if_pos h]

/-- C7: a requested identity with uid 0 makes the account reconciliation
fail immediately with the distinct refusal error and an empty command
trace (no `usermod`, no `groupmod`), and the whole pre-entrypoint stage
run as root then fails with the same error and an empty command trace, so
no `chown` runs either: OS state is unchanged on this error. -/
theorem uid_zero_refused :
    (∀ (currentUser : Entrypoint.User) (sptUserRes : Except String Entrypoint.User)
        (execRes : List String → Except String String) (user : Entrypoint.User),
      user.Uid = 0 →
      Entrypoint.updateNonRootUser currentUser sptUserRes execRes user
        = ([], .error "refusing to update spt user to uid 0")) ∧
    (∀ (currentUser : Entrypoint.User) (sptUserRes : Except String Entrypoint.User)
        (envGidVal envUidVal : String) (mkdirRes : String → Except String Unit)
        (execRes : List String → Except String String)
        (executableRes : Except String String) (pathData pathSpt : String)
        (u : Entrypoint.User),
      currentUser.Uid = 0 →
      Entrypoint.getUserFromEnv sptUserRes envGidVal envUidVal = .ok u →
      u.Uid = 0 →
      Entrypoint.preEntrypoint currentUser sptUserRes envGidVal envUidVal mkdirRes
          execRes executableRes pathData pathSpt
        = ([], .error "refusing to update spt user to uid 0")) := by
  refine ⟨updateNonRootUser_uid_zero, ?_⟩
  intro currentUser sptUserRes envGidVal envUidVal mkdirRes execRes executableRes
    pathData pathSpt u hcu henv hu
  unfold Entrypoint.preEntrypoint
  rw [if_pos hcu, henv]
  simp only [updateNonRootUser_uid_zero currentUser sptUserRes execRes u hu]

/-- Witness for `uid_zero_refused`: a concrete uid-0 request fails with the
refusal error and runs no command, both directly and through the root
branch of the pre-entrypoint stage. -/
theorem uid_zero_refused_witness :
    Entrypoint.updateNonRootUser ⟨0, 0⟩ (.ok ⟨1000, 1000⟩) (fun _ => .ok "") ⟨0, 1000⟩
      = ([], .error "refusing to update spt user to uid 0") ∧
    Entrypoint.preEntrypoint ⟨0, 0⟩ (.ok ⟨1000, 1000⟩) "1000" "0" (fun _ => .ok ())
        (fun _ => .ok "") (.ok "/bin/e") "data" "spt"
      = ([], .error "refusing to update spt user to uid 0") := by
  constructor
  · exact uid_zero_refused.1 ⟨0, 0⟩ (.ok ⟨1000, 1000⟩) (fun _ => .ok "") ⟨0, 1000⟩ rfl
  · exact uid_zero_refused.2 ⟨0, 0⟩ (.ok ⟨1000, 1000⟩) "1000" "0" (fun _ => .ok ())
      (fun _ => .ok "") (.ok "/bin/e") "data" "spt" ⟨0, 1000⟩ rfl (by rfl) rfl

/-- C8: when the current identity is already non-root, the pre-entrypoint
stage performs no identity reconciliation and no ownership change — its
whole command trace is the single command `<executable> entrypoint`, with
no `gosu` identity switch, no `usermod`, no `groupmod` and no `chown` —
and that child runs as the current identity, its status becoming the
result. -/
theorem nonroot_runs_entrypoint_directly (currentUser : Entrypoint.User)
    (sptUserRes : Except String Entrypoint.User) (envGidVal envUidVal : String)
    (mkdirRes : String → Except String Unit)
    (execRes : List String → Except String String) (exe pathData pathSpt : String)
    (h : currentUser.Uid ≠ 0) :
    Entrypoint.preEntrypoint currentUser sptUserRes envGidVal envUidVal mkdirRes
        execRes (.ok exe) pathData pathSpt
      = ([[exe, "entrypoint"]],
          Except.map (fun _ => ()) (execRes [exe, "entrypoint"])) := by
  unfold Entrypoint.preEntrypoint
  rw [if_neg h]
  simp [Entrypoint.launchEntrypoint, Entrypoint.runCmd]

/-- Witness for `nonroot_runs_entrypoint_directly` at a concrete non-root
identity. -/
theorem nonroot_runs_entrypoint_directly_witness :
    Entrypoint.preEntrypoint ⟨1000, 1000⟩ (.ok ⟨1000, 1000⟩) "" "" (fun _ => .ok ())
        (fun _ => .ok "") (.ok "/usr/local/bin/entrypoint") "data" "spt"
      = ([["/usr/local/bin/entrypoint", "entrypoint"]], .ok ()) := by
  have h := nonroot_runs_entrypoint_directly ⟨1000, 1000⟩ (.ok ⟨1000, 1000⟩) "" ""
    (fun _ => .ok ()) (fun _ => .ok "") "/usr/local/bin/entrypoint" "data" "spt"
    (by decide)
  exact h.trans (by rfl)
